import Mathlib

/-!
Verification of the QueryAI repository's core logic: the read-only SQL
guard (`is_read_only_sql`), database-identifier normalization
(`normalize_db_uri` and `build_sqlite_uri_from_path`), the schema
summarizer (`get_schema_summary`), the guarded query runner
(`run_read_only_query`), and the self-correcting Text-to-SQL
orchestration loop (`TextToSQLAgent.answer_question`).

Strings are modelled as `List Char`.  The external collaborators of the
orchestrator (schema introspection, the three language-model calls and
query execution) are modelled as an `Oracle` of outcome functions, each
call site indexed by the attempt counter at the moment of the call, so a
single oracle describes one arbitrary sequence of collaborator outcomes.
A Python exception raised by a collaborator is an `Except.error` value;
an exception escaping `answer_question` itself is an `Except.error`
result of the whole run.
-/

/-- A Python `str`, modelled as its list of characters. -/
abbrev Str := List Char

/-- The ASCII whitespace characters recognised by Python's `str.strip` and
`str.split` (space, tab, newline, carriage return, vertical tab, form feed). -/
def PY_WHITESPACE (c : Char) : Bool :=
  c == ' ' || c == '\t' || c == '\n' || c == '\r' ||
  c == Char.ofNat 11 || c == Char.ofNat 12

/-- Leading-whitespace removal (the first half of Python's `str.strip`). -/
def lstripWS (l : Str) : Str := l.dropWhile PY_WHITESPACE

/-- Python's `str.strip()`: drop leading and trailing whitespace. -/
def pyStrip (l : Str) : Str :=
  ((lstripWS l).reverse.dropWhile PY_WHITESPACE).reverse

/-- Helper for `pySplit`: scans the text, `acc` holding the current word
reversed. -/
def pySplitAux : Str → Str → List Str
  | [], acc => if acc.isEmpty then [] else [acc.reverse]
  | c :: rest, acc =>
      if PY_WHITESPACE c then
        if acc.isEmpty then pySplitAux rest []
        else acc.reverse :: pySplitAux rest []
      else pySplitAux rest (c :: acc)

/-- Python's `str.split()` with no separator: split on runs of whitespace,
discarding empty fields. -/
def pySplit (l : Str) : List Str := pySplitAux l []

/-- `beginsWith n h` is true when `n` is an initial segment of `h`
(Python's `str.startswith`). -/
def beginsWith : Str → Str → Bool
  | [], _ => true
  | _ :: _, [] => false
  | a :: xs, b :: ys => a == b && beginsWith xs ys

/-- `containsSub n h` is true when `n` occurs contiguously inside `h`
(Python's `in` operator on strings). -/
def containsSub (n : Str) : Str → Bool
  | [] => n.isEmpty
  | c :: t => beginsWith n (c :: t) || containsSub n t

/-- Python's `sep.join(parts)`: the parts concatenated with `sep` between
consecutive parts. -/
def pyJoin (sep : List α) : List (List α) → List α
  | [] => []
  | [x] => x
  | x :: y :: rest => x ++ sep ++ pyJoin sep (y :: rest)

/-- `READ_ONLY_BLOCKLIST` from `db_manager.py`: the mutating SQL keywords. -/
def READ_ONLY_BLOCKLIST : List Str :=
  ["INSERT".data, "UPDATE".data, "DELETE".data,
   "DROP".data, "ALTER".data, "TRUNCATE".data]

/-- The normalization performed inside `is_read_only_sql`:
Python's `" ".join(sql.strip().upper().split())`. -/
def normalizeSqlText (sql : Str) : Str :=
  pyJoin " ".data (pySplit ((pyStrip sql).map Char.toUpper))

/-- `is_read_only_sql` from `db_manager.py`: true when no blocklisted
keyword occurs in the normalized, upper-cased text. -/
def is_read_only_sql (sql : Str) : Bool :=
  !(READ_ONLY_BLOCKLIST.any fun keyword => containsSub keyword (normalizeSqlText sql))

/-- `build_sqlite_uri_from_path` from `db_manager.py`: strip the path; a
path already spelled `sqlite:`-first (case-insensitively) is returned as
is, any other path is wrapped as `sqlite:///<path>`. -/
def build_sqlite_uri_from_path (path : Str) : Str :=
  let path := pyStrip path
  if beginsWith "sqlite:".data (path.map Char.toLower) then path
  else "sqlite:///".data ++ path

/-- `normalize_db_uri` from `app_core.py`: strip the identifier; if it
contains `://` return it, otherwise treat it as a SQLite filesystem path. -/
def normalize_db_uri (raw : Str) : Str :=
  let raw := pyStrip raw
  if containsSub "://".data raw then raw
  else build_sqlite_uri_from_path raw

/-- `QueryResult` from `db_manager.py`: the dataframe is modelled by its
column names and rows of cell texts. -/
structure QueryResult where
  columns : List Str
  rows : List (List Str)
  rowcount : Nat
deriving DecidableEq

/-- A database connection as `run_read_only_query` uses it: executing a
statement with parameters either yields the fetched column names and rows
or raises a driver error. -/
structure Connection where
  execute : Str → List (Str × Str) → Except Str (List Str × List (List Str))

/-- The error message of the `ValueError` raised by `run_read_only_query`
when the read-only guard rejects the statement. -/
def READ_ONLY_POLICY_ERROR : Str :=
  "Only read-only SELECT-style queries are allowed.".data

/-- `DatabaseManager.run_read_only_query` from `db_manager.py`.  The first
component is the outcome (`Except.error` models a raised exception); the
second lists the statements actually sent to the connection, so that
"nothing was executed" is observable. -/
def run_read_only_query (conn : Connection) (sql : Str) (params : List (Str × Str)) :
    Except Str QueryResult × List Str :=
  if is_read_only_sql sql then
    match conn.execute sql params with
    | .ok (cols, rows) => (.ok ⟨cols, rows, rows.length⟩, [sql])
    | .error e => (.error e, [sql])
  else
    (.error READ_ONLY_POLICY_ERROR, [])

/-- One column of a table as SQLAlchemy's inspector reports it. -/
structure ColumnInfo where
  name : Str
  type : Str
deriving DecidableEq

/-- The text `f"{c['name']} ({c.get('type')})"` for one column. -/
def columnEntry (c : ColumnInfo) : Str :=
  c.name ++ " (".data ++ c.type ++ ")".data

/-- The line `f"Table {table_name}: {col_desc}"` emitted per table by
`get_schema_summary`. -/
def tableLine (t : Str × List ColumnInfo) : Str :=
  "Table ".data ++ t.1 ++ ": ".data ++
    pyJoin ", ".data (t.2.map columnEntry)

/-- `DatabaseManager.get_schema_summary` from `db_manager.py`, applied to
the table list the driver's catalog enumeration returned: one line is
appended per table, and the lines are joined with newlines. -/
def get_schema_summary (tables : List (Str × List ColumnInfo)) : Str :=
  let lines := tables.foldl (fun acc t => acc ++ [tableLine t]) []
  pyJoin "\n".data lines

/-- The per-table line as §4.3 of the specification words it.
Modelled from the spec: the emitted line is claimed to be
`TableName: col1 (type1), col2 (type2), ...`, the table's own name first. -/
def specTableLine (t : Str × List ColumnInfo) : Str :=
  t.1 ++ ": ".data ++ pyJoin ", ".data (t.2.map columnEntry)

/-- The whole summary as §4.3 of the specification words it.
Modelled from the spec: the `specTableLine`s joined by newlines. -/
def specSchemaSummary (tables : List (Str × List ColumnInfo)) : Str :=
  pyJoin "\n".data (tables.map specTableLine)

/-- `AgentResponse` from `text2sql_agent.py`. -/
structure AgentResponse where
  sql : Str
  result : Option QueryResult
  error : Option Str
  attempts : Nat
  answer : Option Str
deriving DecidableEq

/-- One sequence of outcomes of the orchestrator's external collaborators.
`runQuery`, `genAnswer` and `refineSql` are indexed by the value of the
attempt counter at the call, so each call site of one run gets its own
outcome.  An `Except.error` models a raised exception whose text is
`str(exc)`. -/
structure Oracle where
  schemaSummary : Except Str Str
  dialect : Str
  generateSql : (question schemaS dialect : Str) → Except Str Str
  runQuery : (attempt : Nat) → (sql : Str) → Except Str QueryResult
  genAnswer : (attempt : Nat) → (question sql : Str) → (result : QueryResult) →
    Except Str Str
  refineSql : (attempt : Nat) → (question schemaS prevSql errMsg dialect : Str) →
    Except Str Str

/-- Outcome of one `answer_question` run.  `out` is the returned
`AgentResponse`, or the escaped exception; `execs` counts the calls made
to `run_read_only_query` and `refines` the calls to `refine_sql_on_error`. -/
structure RunOut where
  out : Except Str AgentResponse
  execs : Nat
  refines : Nat

/-- The body of the `try` block of `answer_question`: execute the SQL and
synthesize an answer; the first exception aborts the block. -/
def tryBody (o : Oracle) (question : Str) (attempts : Nat) (sql : Str) :
    Except Str (QueryResult × Str) :=
  match o.runQuery attempts sql with
  | .error exc => .error exc
  | .ok result =>
      match o.genAnswer attempts question sql result with
      | .error exc => .error exc
      | .ok answer => .ok (result, answer)

/-- The `while attempts <= self._max_retries` loop of `answer_question`.
`fuel` bounds the remaining iterations (the caller passes `maxR`, enough
for every reachable state); on success the response is returned at once,
on failure the error is recorded and, if budget remains, the statement is
refined — an exception inside refinement escapes, mirroring the source
where `refine_sql_on_error` runs inside the `except` handler. -/
def loopGo (o : Oracle) (question schemaS : Str) (maxR : Nat) :
    Nat → Nat → Str → Option Str → Nat → Nat → RunOut
  | 0, attempts, sql, lastError, execs, refines =>
      ⟨.ok ⟨sql, none, lastError, attempts, none⟩, execs, refines⟩
  | fuel + 1, attempts, sql, lastError, execs, refines =>
      if attempts ≤ maxR then
        match tryBody o question attempts sql with
        | .ok (result, answer) =>
            ⟨.ok ⟨sql, some result, none, attempts, some answer⟩, execs + 1, refines⟩
        | .error exc =>
            if maxR ≤ attempts then
              ⟨.ok ⟨sql, none, some exc, attempts, none⟩, execs + 1, refines⟩
            else
              match o.refineSql attempts question schemaS sql exc o.dialect with
              | .ok sql2 =>
                  loopGo o question schemaS maxR fuel (attempts + 1) sql2
                    (some exc) (execs + 1) (refines + 1)
              | .error exc2 => ⟨.error exc2, execs + 1, refines⟩
      else
        ⟨.ok ⟨sql, none, lastError, attempts, none⟩, execs, refines⟩

/-- `TextToSQLAgent.answer_question` from `text2sql_agent.py`: compute the
schema summary, generate an initial candidate (both outside any handler,
so their exceptions escape), then run the bounded self-correction loop. -/
def answer_question (o : Oracle) (question : Str) (maxR : Nat) : RunOut :=
  match o.schemaSummary with
  | .error exc => ⟨.error exc, 0, 0⟩
  | .ok schemaS =>
      match o.generateSql question schemaS o.dialect with
      | .error exc => ⟨.error exc, 0, 0⟩
      | .ok sql => loopGo o question schemaS maxR maxR 1 sql none 0 0

/-- An empty query result, used by the concrete collaborator scenarios. -/
def emptyRes : QueryResult := ⟨[], [], 0⟩

/-- Scenario: every execution succeeds, but answer synthesis raises on the
first attempt and succeeds afterwards. -/
def oracleAnsFail1 : Oracle where
  schemaSummary := .ok "S".data
  dialect := "sqlite".data
  generateSql := fun _ _ _ => .ok "Q1".data
  runQuery := fun _ _ => .ok emptyRes
  genAnswer := fun i _ _ _ => if i == 1 then .error "boom".data else .ok "ans".data
  refineSql := fun _ _ _ _ _ _ => .ok "Q2".data

/-- Scenario: every collaborator call succeeds at once. -/
def oracleAllOk : Oracle where
  schemaSummary := .ok "S".data
  dialect := "sqlite".data
  generateSql := fun _ _ _ => .ok "Q1".data
  runQuery := fun _ _ => .ok emptyRes
  genAnswer := fun _ _ _ _ => .ok "ans".data
  refineSql := fun _ _ _ _ _ _ => .ok "Q2".data

/-- The candidate produced for attempt `i` in the all-executions-fail
scenario. -/
def candSeq (i : Nat) : Str := ("Q" ++ toString i).data

/-- The execution error raised at attempt `i` in the all-executions-fail
scenario. -/
def errSeq (i : Nat) : Str := ("E" ++ toString i).data

/-- Scenario: every execution attempt raises, generation and refinement
always deliver the next candidate. -/
def oracleAllFail : Oracle where
  schemaSummary := .ok "S".data
  dialect := "sqlite".data
  generateSql := fun _ _ _ => .ok (candSeq 1)
  runQuery := fun i _ => .error (errSeq i)
  genAnswer := fun _ _ _ _ => .ok "ans".data
  refineSql := fun i _ _ _ _ _ => .ok (candSeq (i + 1))

/-- Scenario: the first execution raises and the refinement call itself
then raises. -/
def oracleRefineRaises : Oracle :=
  { oracleAllFail with refineSql := fun _ _ _ _ _ _ => .error "refine down".data }

/-- Scenario: schema introspection itself raises. -/
def oracleSchemaRaises : Oracle :=
  { oracleAllOk with schemaSummary := .error "catalog down".data }

/-- A connection whose driver accepts every statement and returns one row. -/
def connOneRow : Connection where
  execute := fun _ _ => .ok (["id".data], [["1".data]])

/-- A connection whose driver rejects every statement. -/
def connBroken : Connection where
  execute := fun _ _ => .error "no such table".data

/-- The response `answer_question` returns in the all-succeeding scenario. -/
def respAllOk : AgentResponse :=
  ⟨"Q1".data, some emptyRes, none, 1, some "ans".data⟩

/-- A one-table catalog used as a concrete schema-summary scenario. -/
def tablesUsers : List (Str × List ColumnInfo) :=
  [("users".data, [⟨"id".data, "INTEGER".data⟩])]

/-! ## Lemmas about the string helpers -/

theorem beginsWith_iff (n : Str) : ∀ h : Str, beginsWith n h = true ↔ ∃ r, h = n ++ r := by
  induction n with
  | nil =>
      intro h
      simp [beginsWith]
  | cons a xs ih =>
      intro h
      cases h with
      | nil =>
          simp [beginsWith]
      | cons b ys =>
          simp only [beginsWith, Bool.and_eq_true, beq_iff_eq, ih]
          constructor
          · rintro ⟨hab, r, hr⟩
            exact ⟨r, by simp [hab, hr]⟩
          · rintro ⟨r, hr⟩
            simp only [List.cons_append, List.cons.injEq] at hr
            exact ⟨hr.1.symm, r, hr.2⟩

theorem containsSub_iff (n : Str) : ∀ h : Str, containsSub n h = true ↔ ∃ l r, h = l ++ n ++ r := by
  intro h
  induction h with
  | nil =>
      simp only [containsSub, List.isEmpty_iff]
      constructor
      · rintro rfl
        exact ⟨[], [], rfl⟩
      · rintro ⟨l, r, hr⟩
        rcases List.append_eq_nil.mp (List.append_eq_nil.mp hr.symm).1 with ⟨-, h2⟩
        exact h2
  | cons c t ih =>
      simp only [containsSub, Bool.or_eq_true, beginsWith_iff, ih]
      constructor
      · rintro (⟨r, hr⟩ | ⟨l, r, hr⟩)
        · exact ⟨[], r, by simp [hr]⟩
        · exact ⟨c :: l, r, by simp [hr]⟩
      · rintro ⟨l, r, hr⟩
        cases l with
        | nil =>
            exact Or.inl ⟨r, by simpa using hr⟩
        | cons x xs =>
            simp only [List.cons_append, List.append_assoc, List.cons.injEq] at hr
            exact Or.inr ⟨xs, r, by simp [hr.2]⟩

theorem dropWhile_dropWhile (p : Char → Bool) :
    ∀ l : Str, (l.dropWhile p).dropWhile p = l.dropWhile p := by
  intro l
  induction l with
  | nil => rfl
  | cons a t ih =>
      by_cases h : p a = true
      · simp [List.dropWhile_cons, h, ih]
      · simp [List.dropWhile_cons, h]

theorem dropWhile_shape (p : Char → Bool) :
    ∀ l : Str, l.dropWhile p = [] ∨ ∃ a t, l.dropWhile p = a :: t ∧ p a = false := by
  intro l
  induction l with
  | nil => exact Or.inl rfl
  | cons a t ih =>
      by_cases h : p a = true
      · simpa [List.dropWhile_cons, h] using ih
      · exact Or.inr ⟨a, t, by simp [List.dropWhile_cons, h], by simpa using h⟩

theorem dropWhile_append_exists (p : Char → Bool) :
    ∀ l : Str, ∃ pre, pre ++ l.dropWhile p = l := by
  intro l
  induction l with
  | nil => exact ⟨[], rfl⟩
  | cons a t ih =>
      by_cases h : p a = true
      · obtain ⟨pre, hpre⟩ := ih
        exact ⟨a :: pre, by simp [List.dropWhile_cons, h, hpre]⟩
      · exact ⟨[], by simp [List.dropWhile_cons, h]⟩

theorem pyStrip_head_false (l : Str) (a : Char) (t : Str) (h : pyStrip l = a :: t) :
    PY_WHITESPACE a = false := by
  unfold pyStrip at h
  obtain ⟨pre, hpre⟩ := dropWhile_append_exists PY_WHITESPACE (lstripWS l).reverse
  have hm : ((lstripWS l).reverse.dropWhile PY_WHITESPACE).reverse ++ pre.reverse =
      lstripWS l := by
    have h2 := congrArg List.reverse hpre
    simpa using h2
  rw [h] at hm
  rcases dropWhile_shape PY_WHITESPACE l with hnil | ⟨a2, t2, heq, hfa⟩
  · rw [show lstripWS l = l.dropWhile PY_WHITESPACE from rfl, hnil] at hm
    simp at hm
  · rw [show lstripWS l = l.dropWhile PY_WHITESPACE from rfl, heq] at hm
    simp only [List.cons_append, List.cons.injEq] at hm
    rw [hm.1]
    exact hfa

theorem pyStrip_reverse_dropWhile (l : Str) :
    (pyStrip l).reverse.dropWhile PY_WHITESPACE = (pyStrip l).reverse := by
  unfold pyStrip
  rw [List.reverse_reverse]
  exact dropWhile_dropWhile PY_WHITESPACE (lstripWS l).reverse

theorem lstripWS_pyStrip (l : Str) : lstripWS (pyStrip l) = pyStrip l := by
  rcases h : pyStrip l with _ | ⟨a, t⟩
  · rfl
  · have hf := pyStrip_head_false l a t h
    simp [lstripWS, List.dropWhile_cons, hf]

theorem pyStrip_idem (l : Str) : pyStrip (pyStrip l) = pyStrip l := by
  show ((lstripWS (pyStrip l)).reverse.dropWhile PY_WHITESPACE).reverse = pyStrip l
  rw [lstripWS_pyStrip, pyStrip_reverse_dropWhile, List.reverse_reverse]

theorem pyStrip_sqlite_append (l : Str) :
    pyStrip ("sqlite:///".data ++ pyStrip l) = "sqlite:///".data ++ pyStrip l := by
  have hsq : "sqlite:///".data =
      's' :: 'q' :: 'l' :: 'i' :: 't' :: 'e' :: ':' :: '/' :: '/' :: '/' :: [] := rfl
  have hl : lstripWS ("sqlite:///".data ++ pyStrip l) = "sqlite:///".data ++ pyStrip l := by
    rw [hsq]
    simp [lstripWS, List.dropWhile_cons, PY_WHITESPACE]
  show ((lstripWS ("sqlite:///".data ++ pyStrip l)).reverse.dropWhile
      PY_WHITESPACE).reverse = "sqlite:///".data ++ pyStrip l
  rw [hl, List.reverse_append]
  have hdrop : ((pyStrip l).reverse ++ "sqlite:///".data.reverse).dropWhile
      PY_WHITESPACE = (pyStrip l).reverse ++ "sqlite:///".data.reverse := by
    rcases hs : (pyStrip l).reverse with _ | ⟨a, t⟩
    · simp only [List.nil_append]
      decide
    · have hfa : PY_WHITESPACE a = false := by
        by_cases hpa : PY_WHITESPACE a = true
        · have hfix := pyStrip_reverse_dropWhile l
          rw [hs] at hfix
          simp only [List.dropWhile_cons, hpa, if_true] at hfix
          obtain ⟨pre, hpre⟩ := dropWhile_append_exists PY_WHITESPACE t
          rw [hfix] at hpre
          have := congrArg List.length hpre
          simp at this
          omega
        · simpa using hpa
      simp [List.dropWhile_cons, hfa]
  rw [hdrop]
  simp

/-! ## C4 and C5 and C6: the read-only guard and URI normalization -/

/-- C4: `is_read_only_sql` returns false exactly when the
whitespace-collapsed, upper-cased normalization of the input contains one
of the blocklisted keywords as a substring, and returns true otherwise;
it is a total function of the input text.  The documented examples hold,
including the `updates` false positive. -/
theorem is_read_only_sql_blocklist_substring :
    (∀ s : Str, is_read_only_sql s = false ↔
      ∃ k ∈ READ_ONLY_BLOCKLIST, ∃ l r, normalizeSqlText s = l ++ k ++ r) ∧
    is_read_only_sql "SELECT * FROM users".data = true ∧
    is_read_only_sql "drop table users".data = false ∧
    is_read_only_sql "SELECT * FROM updates".data = false := by
  refine ⟨fun s => ?_, by decide, by decide, by decide⟩
  simp [is_read_only_sql, List.any_eq_true, containsSub_iff]

theorem normalize_db_uri_idem_aux (x : Str) :
    normalize_db_uri (normalize_db_uri x) = normalize_db_uri x := by
  by_cases h1 : containsSub "://".data (pyStrip x) = true
  · have hx : normalize_db_uri x = pyStrip x := by
      simp [normalize_db_uri, h1]
    rw [hx]
    simp [normalize_db_uri, pyStrip_idem, h1]
  · by_cases h2 : beginsWith "sqlite:".data ((pyStrip x).map Char.toLower) = true
    · have hx : normalize_db_uri x = pyStrip x := by
        simp [normalize_db_uri, build_sqlite_uri_from_path, h1, pyStrip_idem, h2]
      rw [hx]
      simp [normalize_db_uri, build_sqlite_uri_from_path, pyStrip_idem, h1, h2]
    · have hx : normalize_db_uri x = "sqlite:///".data ++ pyStrip x := by
        simp [normalize_db_uri, build_sqlite_uri_from_path, h1, pyStrip_idem, h2]
      rw [hx]
      have hcontains : containsSub "://".data ("sqlite:///".data ++ pyStrip x) = true := by
        rw [containsSub_iff]
        exact ⟨"sqlite".data, "/".data ++ pyStrip x, rfl⟩
      unfold normalize_db_uri
      rw [pyStrip_sqlite_append x]
      simp only [hcontains, if_true]

/-- C5: database-identifier normalization is idempotent, and the
normalization of `data/example.db` begins with `sqlite:///` and ends with
`data/example.db`. -/
theorem normalize_db_uri_idempotent :
    (∀ x : Str, normalize_db_uri (normalize_db_uri x) = normalize_db_uri x) ∧
    beginsWith "sqlite:///".data (normalize_db_uri "data/example.db".data) = true ∧
    (∃ l, normalize_db_uri "data/example.db".data = l ++ "data/example.db".data) :=
  ⟨normalize_db_uri_idem_aux, by decide, ⟨"sqlite:///".data, by decide⟩⟩

/-- C6 counterexample: the input `" sqlite:///a "` contains `://` but is
not returned unchanged (it is stripped), and the bare path `sqlite:mem`
(no `://`) is not wrapped into `sqlite:///sqlite:mem` (the `sqlite:`
guard of `build_sqlite_uri_from_path` passes it through). -/
theorem normalize_db_uri_passthrough_cex :
    containsSub "://".data " sqlite:///a ".data = true ∧
    normalize_db_uri " sqlite:///a ".data ≠ " sqlite:///a ".data ∧
    containsSub "://".data "sqlite:mem".data = false ∧
    normalize_db_uri "sqlite:mem".data = "sqlite:mem".data ∧
    normalize_db_uri "sqlite:mem".data ≠ "sqlite:///".data ++ "sqlite:mem".data := by
  refine ⟨by decide, by decide, by decide, by decide, by decide⟩

/-- C6 amended: `normalize_db_uri` is a pure function that first strips
the input; a stripped input containing `://` is returned as stripped, a
stripped input beginning (case-insensitively) with `sqlite:` is returned
as stripped, and every other input is wrapped as `sqlite:///` followed by
the stripped input. -/
theorem normalize_db_uri_cases (x : Str) :
    normalize_db_uri x =
      if containsSub "://".data (pyStrip x) then pyStrip x
      else if beginsWith "sqlite:".data ((pyStrip x).map Char.toLower) then pyStrip x
      else "sqlite:///".data ++ pyStrip x := by
  by_cases h1 : containsSub "://".data (pyStrip x) = true
  · simp [normalize_db_uri, h1]
  · by_cases h2 : beginsWith "sqlite:".data ((pyStrip x).map Char.toLower) = true
    · simp [normalize_db_uri, build_sqlite_uri_from_path, pyStrip_idem, h1, h2]
    · simp [normalize_db_uri, build_sqlite_uri_from_path, pyStrip_idem, h1, h2]

/-! ## C7: the schema summarizer -/

theorem foldl_append_map (f : α → β) :
    ∀ (l : List α) (acc : List β),
      l.foldl (fun a x => a ++ [f x]) acc = acc ++ l.map f := by
  intro l
  induction l with
  | nil => intro acc; simp
  | cons x xs ih => intro acc; simp [ih]

theorem pyJoin_cons2 (sep x y : List α) (rest : List (List α)) :
    pyJoin sep (x :: y :: rest) = x ++ sep ++ pyJoin sep (y :: rest) := rfl

theorem pyJoin_mem_decomp (sep : Str) (f : α → Str) :
    ∀ (ts : List α) (t : α), t ∈ ts →
      ∃ l r, pyJoin sep (ts.map f) = l ++ f t ++ r := by
  intro ts
  induction ts with
  | nil => intro t ht; simp at ht
  | cons x xs ih =>
      intro t ht
      rcases List.mem_cons.mp ht with rfl | hmem
      · cases xs with
        | nil => exact ⟨[], [], by simp [pyJoin]⟩
        | cons y ys =>
            exact ⟨[], sep ++ pyJoin sep ((y :: ys).map f),
              by simp [pyJoin, List.append_assoc]⟩
      · cases xs with
        | nil => simp at hmem
        | cons y ys =>
            obtain ⟨l, r, h⟩ := ih t hmem
            refine ⟨f x ++ sep ++ l, r, ?_⟩
            simp only [List.map_cons] at h ⊢
            rw [pyJoin_cons2, h]
            simp [List.append_assoc]

/-- C7 counterexample: for the one-table catalog with table `users`
holding column `id (INTEGER)`, the summary line emitted is
`Table users: id (INTEGER)`, not the spec's claimed form
`users: id (INTEGER)` (the table name first). -/
theorem get_schema_summary_cex :
    get_schema_summary tablesUsers = "Table users: id (INTEGER)".data ∧
    specSchemaSummary tablesUsers = "users: id (INTEGER)".data ∧
    get_schema_summary tablesUsers ≠ specSchemaSummary tablesUsers := by
  refine ⟨by decide, by decide, by decide⟩

/-- C7 amended: the summary enumerates the catalog's tables in the given
order, emits for each exactly one line of the form
`Table <TableName>: col1 (type1), col2 (type2), ...`, and joins the
per-table lines by newlines; each table's line occurs in the summary. -/
theorem get_schema_summary_lines (tables : List (Str × List ColumnInfo)) :
    get_schema_summary tables = pyJoin "\n".data (tables.map tableLine) ∧
    ∀ t ∈ tables, ∃ l r, get_schema_summary tables = l ++ tableLine t ++ r := by
  have hfold : tables.foldl (fun a x => a ++ [tableLine x]) [] = tables.map tableLine := by
    simpa using foldl_append_map tableLine tables []
  constructor
  · simp [get_schema_summary, hfold]
  · intro t ht
    rw [show get_schema_summary tables = pyJoin "\n".data (tables.map tableLine) from by
      simp [get_schema_summary, hfold]]
    exact pyJoin_mem_decomp "\n".data tableLine tables t ht

/-! ## C9: the guarded query runner -/

/-- C9: when the read-only guard rejects the SQL, `run_read_only_query`
fails with the policy-violation error and sends no statement to the
connection; when the guard passes, it either returns a `QueryResult`
whose `rowcount` equals the number of rows fetched (columns as the driver
returned them) or fails with the driver's error, in both cases having
sent exactly that statement. -/
theorem run_read_only_query_guard (conn : Connection) (sql : Str) (params : List (Str × Str)) :
    (is_read_only_sql sql = false →
      run_read_only_query conn sql params = (.error READ_ONLY_POLICY_ERROR, [])) ∧
    (is_read_only_sql sql = true →
      (∀ cols rows, conn.execute sql params = .ok (cols, rows) →
        run_read_only_query conn sql params = (.ok ⟨cols, rows, rows.length⟩, [sql])) ∧
      (∀ e, conn.execute sql params = .error e →
        run_read_only_query conn sql params = (.error e, [sql]))) := by
  refine ⟨fun h => ?_, fun h => ⟨fun cols rows hex => ?_, fun e hex => ?_⟩⟩
  · simp [run_read_only_query, h]
  · simp [run_read_only_query, h, hex]
  · simp [run_read_only_query, h, hex]

/-! ## Lemmas about the orchestration loop -/

theorem tryBody_eq_ok (o : Oracle) (q : Str) (attempts : Nat) (sql : Str)
    (res : QueryResult) (ans : Str) (h : tryBody o q attempts sql = .ok (res, ans)) :
    o.runQuery attempts sql = .ok res ∧ o.genAnswer attempts q sql res = .ok ans := by
  cases h1 : o.runQuery attempts sql with
  | error e => simp [tryBody, h1] at h
  | ok r =>
      cases h2 : o.genAnswer attempts q sql r with
      | error e => simp [tryBody, h1, h2] at h
      | ok a =>
          simp [tryBody, h1, h2] at h
          obtain ⟨hr, ha⟩ := h
          subst hr
          subst ha
          exact ⟨rfl, h2⟩

theorem tryBody_of_ok_ok (o : Oracle) (q : Str) (attempts : Nat) (sql : Str)
    (res : QueryResult) (ans : Str) (h1 : o.runQuery attempts sql = .ok res)
    (h2 : o.genAnswer attempts q sql res = .ok ans) :
    tryBody o q attempts sql = .ok (res, ans) := by
  simp [tryBody, h1, h2]

theorem tryBody_of_run_error (o : Oracle) (q : Str) (attempts : Nat) (sql : Str)
    (e : Str) (h : o.runQuery attempts sql = .error e) :
    tryBody o q attempts sql = .error e := by
  simp [tryBody, h]

theorem loopGo_counts (o : Oracle) (q ss : Str) (maxR : Nat) :
    ∀ fuel attempts sql le ex rf,
      (loopGo o q ss maxR fuel attempts sql le ex rf).execs ≤ ex + (maxR + 1 - attempts) ∧
      (loopGo o q ss maxR fuel attempts sql le ex rf).refines ≤ rf + (maxR - attempts) := by
  intro fuel
  induction fuel with
  | zero =>
      intro attempts sql le ex rf
      simp only [loopGo]
      omega
  | succ fuel ih =>
      intro attempts sql le ex rf
      simp only [loopGo]
      by_cases hle : attempts ≤ maxR
      · rw [if_pos hle]
        cases htry : tryBody o q attempts sql with
        | ok p =>
            obtain ⟨res, ans⟩ := p
            simp only []
            omega
        | error exc =>
            simp only []
            by_cases hbr : maxR ≤ attempts
            · rw [if_pos hbr]
              simp only []
              omega
            · rw [if_neg hbr]
              cases href : o.refineSql attempts q ss sql exc o.dialect with
              | error exc2 =>
                  simp only []
                  omega
              | ok sql2 =>
                  simp only []
                  obtain ⟨h1, h2⟩ := ih (attempts + 1) sql2 (some exc) (ex + 1) (rf + 1)
                  omega
      · rw [if_neg hle]
        simp only []
        omega

theorem loopGo_first_success (o : Oracle) (q ss : Str) (maxR : Nat)
    (fuel attempts : Nat) (sql : Str) (le : Option Str) (ex rf : Nat)
    (res : QueryResult) (ans : Str)
    (hle : attempts ≤ maxR) (hf : 1 ≤ fuel)
    (hrun : o.runQuery attempts sql = .ok res)
    (hans : o.genAnswer attempts q sql res = .ok ans) :
    loopGo o q ss maxR fuel attempts sql le ex rf =
      ⟨.ok ⟨sql, some res, none, attempts, some ans⟩, ex + 1, rf⟩ := by
  cases fuel with
  | zero => omega
  | succ fuel =>
      simp only [loopGo]
      rw [if_pos hle, tryBody_of_ok_ok o q attempts sql res ans hrun hans]

theorem loopGo_ok_inv (o : Oracle) (q ss : Str) (maxR : Nat) :
    ∀ fuel attempts sql le ex rf,
      attempts ≤ maxR →
      (le = none → maxR + 1 ≤ attempts + fuel) →
      ∀ resp, (loopGo o q ss maxR fuel attempts sql le ex rf).out = .ok resp →
        (attempts ≤ resp.attempts ∧ resp.attempts ≤ maxR) ∧
        ((resp.result = none) ↔ (resp.error ≠ none)) ∧
        ((resp.answer ≠ none) ↔ (resp.result ≠ none)) ∧
        (resp.error = none →
          (loopGo o q ss maxR fuel attempts sql le ex rf).execs =
            ex + 1 + (resp.attempts - attempts) ∧
          ∃ res ans, resp.result = some res ∧ resp.answer = some ans ∧
            o.runQuery resp.attempts resp.sql = .ok res ∧
            o.genAnswer resp.attempts q resp.sql res = .ok ans) := by
  intro fuel
  induction fuel with
  | zero =>
      intro attempts sql le ex rf hle hfuel resp hout
      cases le with
      | none => exact absurd (hfuel rfl) (by omega)
      | some e =>
          simp only [loopGo] at hout
          injection hout with h
          subst h
          refine ⟨⟨le_refl _, hle⟩, by simp, by simp, fun herr => ?_⟩
          simp at herr
  | succ fuel ih =>
      intro attempts sql le ex rf hle hfuel resp hout
      simp only [loopGo] at hout ⊢
      rw [if_pos hle] at hout ⊢
      cases htry : tryBody o q attempts sql with
      | ok p =>
          obtain ⟨res, ans⟩ := p
          rw [htry] at hout
          simp only [] at hout ⊢
          injection hout with h
          subst h
          obtain ⟨hrun, hans⟩ := tryBody_eq_ok o q attempts sql res ans htry
          refine ⟨⟨le_refl _, hle⟩, by simp, by simp, fun _ => ?_⟩
          exact ⟨by simp, res, ans, rfl, rfl, hrun, hans⟩
      | error exc =>
          rw [htry] at hout
          simp only [] at hout ⊢
          by_cases hbr : maxR ≤ attempts
          · rw [if_pos hbr] at hout ⊢
            simp only [] at hout ⊢
            injection hout with h
            subst h
            refine ⟨⟨le_refl _, hle⟩, by simp, by simp, fun herr => ?_⟩
            simp at herr
          · rw [if_neg hbr] at hout ⊢
            cases href : o.refineSql attempts q ss sql exc o.dialect with
            | error exc2 =>
                rw [href] at hout
                simp only [] at hout
                simp at hout
            | ok sql2 =>
                rw [href] at hout
                simp only [] at hout ⊢
                have hrec := ih (attempts + 1) sql2 (some exc) (ex + 1) (rf + 1)
                  (by omega) (fun h => by cases h) resp hout
                obtain ⟨⟨hb1, hb2⟩, hiff1, hiff2, hsucc⟩ := hrec
                refine ⟨⟨by omega, hb2⟩, hiff1, hiff2, fun herr => ?_⟩
                obtain ⟨hexecs, hrest⟩ := hsucc herr
                exact ⟨by omega, hrest⟩

theorem loopGo_no_escape (o : Oracle) (q ss : Str) (maxR : Nat)
    (href : ∀ i p er, ∃ s2, o.refineSql i q ss p er o.dialect = .ok s2) :
    ∀ fuel attempts sql le ex rf,
      ∃ resp, (loopGo o q ss maxR fuel attempts sql le ex rf).out = .ok resp := by
  intro fuel
  induction fuel with
  | zero =>
      intro attempts sql le ex rf
      exact ⟨_, rfl⟩
  | succ fuel ih =>
      intro attempts sql le ex rf
      simp only [loopGo]
      by_cases hle : attempts ≤ maxR
      · rw [if_pos hle]
        cases htry : tryBody o q attempts sql with
        | ok p =>
            obtain ⟨res, ans⟩ := p
            exact ⟨_, rfl⟩
        | error exc =>
            simp only []
            by_cases hbr : maxR ≤ attempts
            · rw [if_pos hbr]
              exact ⟨_, rfl⟩
            · rw [if_neg hbr]
              obtain ⟨s2, hs2⟩ := href attempts sql exc
              rw [hs2]
              exact ih (attempts + 1) s2 (some exc) (ex + 1) (rf + 1)
      · rw [if_neg hle]
        exact ⟨_, rfl⟩

theorem loopGo_all_fail (o : Oracle) (q ss : Str) (maxR : Nat) (c e : Nat → Str)
    (hrun : ∀ i, i ≤ maxR → o.runQuery i (c i) = .error (e i))
    (href : ∀ i, i < maxR → o.refineSql i q ss (c i) (e i) o.dialect = .ok (c (i + 1))) :
    ∀ fuel attempts le ex rf, 1 ≤ attempts → attempts ≤ maxR →
      attempts + fuel = maxR + 1 →
      loopGo o q ss maxR fuel attempts (c attempts) le ex rf =
        ⟨.ok ⟨c maxR, none, some (e maxR), maxR, none⟩,
          ex + (maxR + 1 - attempts), rf + (maxR - attempts)⟩ := by
  intro fuel
  induction fuel with
  | zero =>
      intro attempts le ex rf h1 h2 h3
      omega
  | succ fuel ih =>
      intro attempts le ex rf h1 h2 h3
      simp only [loopGo]
      rw [if_pos h2]
      rw [tryBody_of_run_error o q attempts (c attempts) (e attempts) (hrun attempts h2)]
      simp only []
      by_cases hbr : maxR ≤ attempts
      · rw [if_pos hbr]
        have h5 : attempts = maxR := le_antisymm h2 hbr
        rw [h5]
        rw [show ex + (maxR + 1 - maxR) = ex + 1 from by omega]
        rw [show rf + (maxR - maxR) = rf from by omega]
      · rw [if_neg hbr]
        rw [href attempts (by omega)]
        simp only []
        rw [ih (attempts + 1) (some (e attempts)) (ex + 1) (rf + 1)
          (by omega) (by omega) (by omega)]
        rw [show ex + 1 + (maxR + 1 - (attempts + 1)) = ex + (maxR + 1 - attempts) from by omega]
        rw [show rf + 1 + (maxR - (attempts + 1)) = rf + (maxR - attempts) from by omega]

theorem answer_question_eq (o : Oracle) (q : Str) (maxR : Nat) (ss sql : Str)
    (hs : o.schemaSummary = .ok ss) (hg : o.generateSql q ss o.dialect = .ok sql) :
    answer_question o q maxR = loopGo o q ss maxR maxR 1 sql none 0 0 := by
  unfold answer_question
  rw [hs]
  simp only []
  rw [hg]

theorem answer_question_counts (o : Oracle) (q : Str) (maxR : Nat) :
    (answer_question o q maxR).execs ≤ maxR ∧
    (answer_question o q maxR).refines ≤ maxR - 1 := by
  unfold answer_question
  cases hs : o.schemaSummary with
  | error e => simp
  | ok ss =>
      simp only []
      cases hg : o.generateSql q ss o.dialect with
      | error e => simp
      | ok sql =>
          simp only []
          obtain ⟨h1, h2⟩ := loopGo_counts o q ss maxR maxR 1 sql none 0 0
          constructor <;> omega

theorem answer_question_ok_inv (o : Oracle) (q : Str) (maxR : Nat) (hmax : 1 ≤ maxR) :
    ∀ resp, (answer_question o q maxR).out = .ok resp →
      (1 ≤ resp.attempts ∧ resp.attempts ≤ maxR) ∧
      ((resp.result = none) ↔ (resp.error ≠ none)) ∧
      ((resp.answer ≠ none) ↔ (resp.result ≠ none)) ∧
      (resp.error = none →
        (answer_question o q maxR).execs = resp.attempts ∧
        ∃ res ans, resp.result = some res ∧ resp.answer = some ans ∧
          o.runQuery resp.attempts resp.sql = .ok res ∧
          o.genAnswer resp.attempts q resp.sql res = .ok ans) := by
  intro resp hout
  unfold answer_question at hout ⊢
  cases hs : o.schemaSummary with
  | error e =>
      rw [hs] at hout
      simp only [] at hout
      simp at hout
  | ok ss =>
      rw [hs] at hout
      simp only [] at hout ⊢
      cases hg : o.generateSql q ss o.dialect with
      | error e =>
          rw [hg] at hout
          simp only [] at hout
          simp at hout
      | ok sql =>
          rw [hg] at hout
          simp only [] at hout ⊢
          have h := loopGo_ok_inv o q ss maxR maxR 1 sql none 0 0 hmax
            (fun _ => by omega) resp hout
          obtain ⟨⟨hb1, hb2⟩, hi1, hi2, hs3⟩ := h
          refine ⟨⟨hb1, hb2⟩, hi1, hi2, fun herr => ?_⟩
          obtain ⟨he, hrest⟩ := hs3 herr
          exact ⟨by omega, hrest⟩

/-! ## C1, C2, C3, C8, C10: the orchestration loop -/

/-- C1 counterexample: with collaborators whose executions all succeed
but whose answer synthesis raises on attempt 1, the first execution
attempt succeeds, yet the run goes on to refine and execute again,
returning attempts = 2 after two execution attempts — the loop does not
stop on the first successful execution. -/
theorem answer_question_first_success_cex :
    oracleAnsFail1.runQuery 1 "Q1".data = .ok emptyRes ∧
    oracleAnsFail1.generateSql "q".data "S".data "sqlite".data = .ok "Q1".data ∧
    (answer_question oracleAnsFail1 "q".data 2).out =
      .ok ⟨"Q2".data, some emptyRes, none, 2, some "ans".data⟩ ∧
    (answer_question oracleAnsFail1 "q".data 2).execs = 2 ∧
    (answer_question oracleAnsFail1 "q".data 2).refines = 1 :=
  ⟨rfl, rfl, rfl, rfl, rfl⟩

/-- C1 amended: for every question, every sequence of collaborator
outcomes and max_retries ≥ 1, at most max_retries execution attempts and
at most max_retries - 1 refinement calls are performed; a normally
returned success response has attempts equal to the number of execution
attempts performed and carries exactly its own attempt's QueryResult and
synthesized answer; and on the first attempt whose execution AND answer
synthesis both succeed the loop stops immediately, with no further
refinement or execution, regardless of remaining budget.  (A successful
execution whose answer synthesis then raises does not stop the loop: it
consumes the attempt and triggers refinement, as the counterexample
shows.) -/
theorem answer_question_retry_bound_and_stop (o : Oracle) (q : Str) (maxR : Nat)
    (hmax : 1 ≤ maxR) :
    (answer_question o q maxR).execs ≤ maxR ∧
    (answer_question o q maxR).refines ≤ maxR - 1 ∧
    (∀ resp, (answer_question o q maxR).out = .ok resp → resp.error = none →
      resp.attempts = (answer_question o q maxR).execs ∧
      ∃ res ans, resp.result = some res ∧ resp.answer = some ans ∧
        o.runQuery resp.attempts resp.sql = .ok res ∧
        o.genAnswer resp.attempts q resp.sql res = .ok ans) ∧
    (∀ ss fuel attempts sql le ex rf res ans,
      attempts ≤ maxR → 1 ≤ fuel →
      o.runQuery attempts sql = .ok res →
      o.genAnswer attempts q sql res = .ok ans →
      loopGo o q ss maxR fuel attempts sql le ex rf =
        ⟨.ok ⟨sql, some res, none, attempts, some ans⟩, ex + 1, rf⟩) := by
  obtain ⟨hc1, hc2⟩ := answer_question_counts o q maxR
  refine ⟨hc1, hc2, fun resp hout herr => ?_,
    fun ss fuel attempts sql le ex rf res ans h1 h2 h3 h4 =>
      loopGo_first_success o q ss maxR fuel attempts sql le ex rf res ans h1 h2 h3 h4⟩
  obtain ⟨⟨hb1, hb2⟩, hi1, hi2, hsucc⟩ := answer_question_ok_inv o q maxR hmax resp hout
  obtain ⟨he, hrest⟩ := hsucc herr
  exact ⟨he.symm, hrest⟩

/-- C1 witness: the theorem applies to the all-succeeding scenario with
max_retries = 3. -/
theorem answer_question_retry_bound_and_stop_witness :
    (answer_question oracleAllOk "q".data 3).execs ≤ 3 :=
  (answer_question_retry_bound_and_stop oracleAllOk "q".data 3 (by decide)).1

/-- C2: whenever the collaborators deliver a schema summary and a
candidate for every attempt and every execution attempt raises, the run
returns an AgentResponse with exactly max_retries attempts, the final
attempt's error only, the final candidate as sql, no result and no
answer, having performed exactly max_retries executions and
max_retries - 1 refinements. -/
theorem answer_question_exhausted (o : Oracle) (q : Str) (maxR : Nat) (ss : Str)
    (c e : Nat → Str) (hmax : 1 ≤ maxR)
    (hs : o.schemaSummary = .ok ss)
    (hg : o.generateSql q ss o.dialect = .ok (c 1))
    (hrun : ∀ i, i ≤ maxR → o.runQuery i (c i) = .error (e i))
    (href : ∀ i, i < maxR → o.refineSql i q ss (c i) (e i) o.dialect = .ok (c (i + 1))) :
    answer_question o q maxR =
      ⟨.ok ⟨c maxR, none, some (e maxR), maxR, none⟩, maxR, maxR - 1⟩ := by
  rw [answer_question_eq o q maxR ss (c 1) hs hg]
  rw [loopGo_all_fail o q ss maxR c e hrun href maxR 1 none 0 0 (le_refl 1) hmax (by omega)]
  rw [show 0 + (maxR + 1 - 1) = maxR from by omega]
  rw [show 0 + (maxR - 1) = maxR - 1 from by omega]

/-- C2 witness: in the all-executions-fail scenario with max_retries = 2
the run ends with the second candidate, the second error, attempts = 2,
two executions and one refinement. -/
theorem answer_question_exhausted_witness :
    answer_question oracleAllFail "q".data 2 =
      ⟨.ok ⟨candSeq 2, none, some (errSeq 2), 2, none⟩, 2, 1⟩ :=
  answer_question_exhausted oracleAllFail "q".data 2 "S".data candSeq errSeq
    (by decide) rfl rfl (fun i _ => rfl) (fun i _ => rfl)

/-- C3 counterexample: with max_retries = 0 the returned attempts field
is 1, exceeding the configured max; and in the synthesis-fails-once
scenario the loop retries (a second execution occurs) even though the
first execution attempt succeeded. -/
theorem answer_question_attempts_cex :
    (answer_question oracleAllOk "q".data 0).out =
      .ok ⟨"Q1".data, none, none, 1, none⟩ ∧
    oracleAnsFail1.runQuery 1 "Q1".data = .ok emptyRes ∧
    (answer_question oracleAnsFail1 "q".data 2).execs = 2 :=
  ⟨rfl, rfl, rfl⟩

/-- C3 amended: for max_retries ≥ 1, every normally returned response
has 1 ≤ attempts ≤ max_retries, and the loop's work is finite and
bounded: at most max_retries executions are performed, and on any
attempt whose execution and answer synthesis both succeed the loop stops
with no further execution.  (With max_retries = 0 the returned attempts
field is 1 > 0, and a successful execution whose answer synthesis fails
is retried, per the counterexample.) -/
theorem answer_question_attempts_invariant (o : Oracle) (q : Str) (maxR : Nat)
    (hmax : 1 ≤ maxR) :
    (∀ resp, (answer_question o q maxR).out = .ok resp →
      1 ≤ resp.attempts ∧ resp.attempts ≤ maxR) ∧
    (answer_question o q maxR).execs ≤ maxR ∧
    (∀ ss fuel attempts sql le ex rf res ans, attempts ≤ maxR → 1 ≤ fuel →
      o.runQuery attempts sql = .ok res → o.genAnswer attempts q sql res = .ok ans →
      (loopGo o q ss maxR fuel attempts sql le ex rf).execs = ex + 1) := by
  refine ⟨fun resp hout => (answer_question_ok_inv o q maxR hmax resp hout).1,
    (answer_question_counts o q maxR).1,
    fun ss fuel attempts sql le ex rf res ans h1 h2 h3 h4 => ?_⟩
  rw [loopGo_first_success o q ss maxR fuel attempts sql le ex rf res ans h1 h2 h3 h4]

/-- C3 witness: the theorem applies to the all-succeeding scenario with
max_retries = 1. -/
theorem answer_question_attempts_invariant_witness :
    (answer_question oracleAllOk "q".data 1).execs ≤ 1 :=
  (answer_question_attempts_invariant oracleAllOk "q".data 1 (by decide)).2.1

/-- C8 counterexample: a failure of schema summarization escapes
`answer_question` as an unhandled exception, and so does a failure of
the refinement call (raised inside the `except` handler), even though
only execution attempts had failed before it — contradicting "all
failures inside one run are captured locally". -/
theorem answer_question_escape_cex :
    (answer_question oracleSchemaRaises "q".data 3).out = .error "catalog down".data ∧
    oracleRefineRaises.runQuery 1 (candSeq 1) = .error (errSeq 1) ∧
    (answer_question oracleRefineRaises "q".data 3).out = .error "refine down".data :=
  ⟨rfl, rfl, rfl⟩

/-- C8 amended: execution and answer-synthesis failures are captured by
the orchestrator and converted into the run's terminal AgentResponse —
when schema summarization, initial generation and every refinement call
succeed, no exception escapes — but a failure of schema summarization,
of the initial generation, or of a refinement call propagates out of
`answer_question` unhandled. -/
theorem answer_question_capture_policy (o : Oracle) (q : Str) (maxR : Nat) :
    (∀ e, o.schemaSummary = .error e →
      (answer_question o q maxR).out = .error e) ∧
    (∀ ss e, o.schemaSummary = .ok ss → o.generateSql q ss o.dialect = .error e →
      (answer_question o q maxR).out = .error e) ∧
    (∀ ss sql, o.schemaSummary = .ok ss → o.generateSql q ss o.dialect = .ok sql →
      (∀ i p er, ∃ s2, o.refineSql i q ss p er o.dialect = .ok s2) →
      ∃ resp, (answer_question o q maxR).out = .ok resp) := by
  refine ⟨fun e hs => ?_, fun ss e hs hg => ?_, fun ss sql hs hg href => ?_⟩
  · unfold answer_question
    rw [hs]
  · unfold answer_question
    rw [hs]
    simp only []
    rw [hg]
  · rw [answer_question_eq o q maxR ss sql hs hg]
    exact loopGo_no_escape o q ss maxR href maxR 1 sql none 0 0

/-- C10: for max_retries ≥ 1, a normally returned AgentResponse has
result = none exactly when error is present, and an answer exactly when
a result is present: a failure response never carries a partial result
or a synthesized answer, and a success response always carries both. -/
theorem answer_question_result_error_exclusive (o : Oracle) (q : Str) (maxR : Nat)
    (hmax : 1 ≤ maxR) :
    ∀ resp, (answer_question o q maxR).out = .ok resp →
      ((resp.result = none) ↔ (resp.error ≠ none)) ∧
      ((resp.answer ≠ none) ↔ (resp.result ≠ none)) := by
  intro resp hout
  obtain ⟨-, hi1, hi2, -⟩ := answer_question_ok_inv o q maxR hmax resp hout
  exact ⟨hi1, hi2⟩

/-- C10 witness: the theorem applies to the all-succeeding scenario's
concrete response. -/
theorem answer_question_result_error_exclusive_witness :
    ((respAllOk.result = none) ↔ (respAllOk.error ≠ none)) ∧
    ((respAllOk.answer ≠ none) ↔ (respAllOk.result ≠ none)) :=
  answer_question_result_error_exclusive oracleAllOk "q".data 3 (by decide) respAllOk rfl
